import Mathlib

/-!
Verification development for the MenZ-GeminiCLI repository.

The Python source (src/app/geminicli_runner.py and src/app/client.py) is
shallow-embedded here.  Python strings are modelled as lists of unicode
scalar values (`List Char`), matching Python's code-point semantics for
`len`, slicing and iteration.  Time-bounded read loops are modelled by
letting the finite scripted line list run out: both the `deadline`
expiry and the `readline` exception `break` in the source exit the loop
the same way, so stream exhaustion is the faithful pure counterpart.
-/

namespace MenZ

/-- Str is the model of a Python `str`: a finite sequence of code points. -/
abbrev Str := List Char

/-- Characters treated as whitespace by Python's `str.strip()` /
`str.isspace()` (the ones that can actually occur here: ASCII whitespace,
the C1/separator spaces and the unicode line/paragraph separators). -/
def isPySpace (c : Char) : Bool :=
  c = ' ' || c = '\t' || c = '\n' || c = '\r' ||
  c = Char.ofNat 11 || c = Char.ofNat 12 ||
  c = Char.ofNat 28 || c = Char.ofNat 29 || c = Char.ofNat 30 || c = Char.ofNat 31 ||
  c = Char.ofNat 133 || c = Char.ofNat 160 ||
  c = Char.ofNat 8232 || c = Char.ofNat 8233

/-- Python `s.strip()`: drop leading and trailing whitespace. -/
def pyStrip (l : Str) : Str :=
  ((l.dropWhile isPySpace).reverse.dropWhile isPySpace).reverse

/-- Python `line.rstrip('\r\n')` as applied to every line read from the
pseudo-terminal in `_wait_answer`. -/
def rstripCRLF (l : Str) : Str :=
  (l.reverse.dropWhile (fun c => c = '\r' || c = '\n')).reverse

/-- Python `s.startswith(p)` on code-point lists. -/
def startsWith (p l : Str) : Bool := List.isPrefixOf p l

/-- The `_SPECIAL_CHAR_MAP` table of `GeminiCLIRunner`: reserved
half-width characters and their full-width replacements, in the
dictionary's insertion order. -/
def specialCharMap : List (Char × Char) :=
  [('/', '／'), ('!', '！'), ('.', '．'), ('@', '＠'),
   ('#', '＃'), ('$', '＄'), ('(', '（'), (')', '）'),
   (Char.ofNat 96, '｀'), ('|', '｜'), ('&', '＆'), (';', '；'),
   ('\\', '＼'), ('~', '～')]

/-- Python `s.replace(src, rep)` when `src` and `rep` are single
characters: every occurrence is replaced, i.e. a character-wise map. -/
def replaceChar (src rep : Char) (l : Str) : Str :=
  l.map fun c => if c = src then rep else c

/-- GeminiCLIRunner._sanitize_text: the guard `if not text: return text`
followed by one `str.replace` per entry of `_SPECIAL_CHAR_MAP`. -/
def sanitizeText (l : Str) : Str :=
  if l = [] then l
  else specialCharMap.foldl (fun acc p => replaceChar p.1 p.2 acc) l

/-- Character-level action of the whole replacement chain, applied in
the same left-to-right order as `_sanitize_text`. -/
def sanChar (c : Char) : Char :=
  specialCharMap.foldl (fun x p => if x = p.1 then p.2 else x) c

/-- The list of reserved (half-width) source characters. -/
def reservedChars : Str := specialCharMap.map Prod.fst

/-! Completion detector (`GeminiCLIRunner._wait_answer`).

Every line read from the pty is post-processed in the source as
`line.rstrip('\r\n')`, then `_ansi_re.sub('', line)` with the regex
ESC followed by either a single byte in 0x40-0x5A/0x5C-0x5F or by
a CSI sequence, then `.strip()`.  The scripted stream is a finite
list of lines; exhausting it models both the deadline expiry and the
readline-exception break, which exit the loops identically. -/

/-- Membership test for the first alternative of the ANSI regex,
the character class covering 0x40-0x5A and 0x5C-0x5F. -/
def ansiFirstClass (c : Char) : Bool :=
  (64 ≤ c.toNat && c.toNat ≤ 90) || (92 ≤ c.toNat && c.toNat ≤ 95)

/-- Parameter bytes of a CSI sequence, the class 0x30-0x3F. -/
def ansiParamClass (c : Char) : Bool := 48 ≤ c.toNat && c.toNat ≤ 63

/-- Intermediate bytes of a CSI sequence, the class 0x20-0x2F. -/
def ansiInterClass (c : Char) : Bool := 32 ≤ c.toNat && c.toNat ≤ 47

/-- Final byte of a CSI sequence, the class 0x40-0x7E. -/
def ansiFinalClass (c : Char) : Bool := 64 ≤ c.toNat && c.toNat ≤ 126

/-- Attempts to match the ANSI-escape body right after an ESC byte;
returns the remaining characters on success.  The three classes are
pairwise disjoint, so the greedy scan is exactly the regex match. -/
def matchAnsiAfterEsc : Str → Option Str
  | [] => none
  | c :: cs =>
    if c = '[' then
      match (cs.dropWhile ansiParamClass).dropWhile ansiInterClass with
      | d :: ds => if ansiFinalClass d then some ds else none
      | [] => none
    else if ansiFirstClass c then some cs else none

/-- Scanner for `_ansi_re.sub('', line)`: at each position, a successful
match is deleted, otherwise the character is kept.  The fuel is the
input length; every step consumes at least one character, so the fuel
never runs out before the input does. -/
def ansiStripGo : Nat → Str → Str
  | 0, l => l
  | _ + 1, [] => []
  | fuel + 1, c :: cs =>
      if c = Char.ofNat 27 then
        match matchAnsiAfterEsc cs with
        | some rest => ansiStripGo fuel rest
        | none => c :: ansiStripGo fuel cs
      else c :: ansiStripGo fuel cs

/-- Python `self._ansi_re.sub('', line)`. -/
def ansiStrip (l : Str) : Str := ansiStripGo l.length l

/-- The spinner characters `_SPINNER_CHARS`. -/
def spinnerChars : Str := ("⠋⠙⠹⠸⠼⠴⠦⠧⠇⠏").toList

/-- Python `any(cont.startswith(c) for c in self._SPINNER_CHARS)`:
the first character is a spinner frame. -/
def spinnerHead : Str → Bool
  | [] => false
  | c :: _ => spinnerChars.contains c

/-- The confirmation literal checked with `cont.startswith('Using:')`. -/
def usingPfx : Str := ("Using:").toList

/-- Everything after the first marker glyph on a line; combined with an
outer `pyStrip` this is the group of the regex search for the marker
followed by optional whitespace and the rest of the line. -/
def afterMarker : Str → Str
  | [] => []
  | c :: cs => if c = '✦' then cs else afterMarker cs

/-- Per-line preprocessing shared by both phases:
`rstrip('\r\n')`, ANSI removal, `strip()`. -/
def cleanLine (l : Str) : Str := pyStrip (ansiStrip (rstripCRLF l))

/-- Result of the inner tracking loop `read_until_confirmed_return_last`:
the returned text, whether the confirmed branch returned it (true) or the
loop fell out at end of stream (false), and the unread rest of the
stream (the source loops share one stream position, so the skip branch
of Phase 1 resumes after the lines the drain call consumed). -/
structure P2Result where
  result : Option Str
  confirmed : Bool
  rest : List Str
  deriving Repr, DecidableEq

/-- GeminiCLIRunner._wait_answer.read_until_confirmed_return_last:
tracks the streaming answer (`last`), the blank-line flag
(`found_empty_after_diamond`) and the spinner flag (`is_loading`),
returning on the blank-then-confirmation pattern, with the checks in
the source's order. -/
def phase2 (last : Option Str) (foundEmpty isLoading : Bool) :
    List Str → P2Result
  | [] => ⟨last, false, []⟩
  | line :: ls =>
    let cont := cleanLine line
    if cont.contains '✦' then
      let body := pyStrip (afterMarker cont)
      if body ≠ [] then phase2 (some body) false isLoading ls
      else phase2 last foundEmpty isLoading ls
    else if spinnerHead cont then
      phase2 last false true ls
    else if cont = [] ∧ last ≠ none then
      if isLoading then phase2 last foundEmpty isLoading ls
      else phase2 last true isLoading ls
    else if foundEmpty ∧ startsWith usingPfx cont then
      ⟨last, true, ls⟩
    else if cont ≠ [] ∧ ¬ spinnerHead cont then
      phase2 last foundEmpty false ls
    else
      phase2 last foundEmpty isLoading ls

/-- GeminiCLIRunner._wait_answer, Phase 1: seek a marker line whose
non-empty body differs from `skip_text`; on a match enter Phase 2 and
return its result, on a skipped (stale) block drain it with Phase 2 and
continue scanning from the rest of the stream.  The fuel counts outer
iterations; each one consumes at least the head line, so fuel equal to
the stream length can never be exhausted before the stream is, and the
zero-fuel case coincides with the source's Phase 1 deadline result
(None).  The Bool records whether Phase 2's confirmed branch produced
the returned answer. -/
def phase1 (skip : Option Str) : Nat → List Str → Option Str × Bool
  | 0, _ => (none, false)
  | _ + 1, [] => (none, false)
  | fuel + 1, line :: ls =>
    let cont := cleanLine line
    if cont.contains '✦' then
      let body := pyStrip (afterMarker cont)
      if body ≠ [] ∧ (skip = none ∨ skip ≠ some body) then
        let r := phase2 (some body) false false ls
        (r.result, r.confirmed)
      else
        phase1 skip fuel (phase2 (some body) false false ls).rest
    else phase1 skip fuel ls

/-- GeminiCLIRunner._wait_answer with its confirmation observation. -/
def waitAnswerI (lines : List Str) (skip : Option Str) : Option Str × Bool :=
  phase1 skip (lines.length + 1) lines

/-- GeminiCLIRunner._wait_answer: the detector's returned answer. -/
def waitAnswer (lines : List Str) (skip : Option Str) : Option Str :=
  (waitAnswerI lines skip).1

/-- The scripted stream of the streaming scenario. -/
def scriptA : List Str :=
  [("⠋").toList, ("✦ Hello").toList, ("⠙").toList,
   ("✦ Hello, world").toList, [], ("Using: 10 tokens").toList]

/-- The scripted stream of the staleness scenario: the same block
followed by a second marker, spinner, blank and confirmation block
whose body is New answer. -/
def scriptB : List Str :=
  scriptA ++ [("✦ New answer").toList, ("⠹").toList, [],
              ("Using: 5 tokens").toList]

/-! Session state and the exchange (`GeminiCLIRunner._send_and_receive_async`). -/

/-- The runner's session state relevant to an exchange: the
`_initialized` flag and `_last_answer`. -/
structure RunnerState where
  initialized : Bool
  lastAnswer : Option Str
  deriving Repr, DecidableEq

/-- Outcome of `_send_and_receive_async`: a returned answer, the
`TimeoutError` raised when the detector produced nothing truthy, or the
`RuntimeError` raised when the session is not initialized. -/
inductive ExchangeOutcome where
  | ok (answer : Str)
  | timeoutErr
  | notInitialized
  deriving Repr, DecidableEq

/-- GeminiCLIRunner._send_and_receive_async: run the detector with
`skip_text = self._last_answer` over the scripted reply stream; a truthy
answer is cached into `_last_answer` and returned, otherwise
`TimeoutError` is raised and the state is unchanged. -/
def sendAndReceive (st : RunnerState) (lines : List Str) :
    ExchangeOutcome × RunnerState :=
  if st.initialized = false then (ExchangeOutcome.notInitialized, st)
  else
    match waitAnswer lines st.lastAnswer with
    | some s =>
        if s ≠ [] then (ExchangeOutcome.ok s, { st with lastAnswer := some s })
        else (ExchangeOutcome.timeoutErr, st)
    | none => (ExchangeOutcome.timeoutErr, st)

/-! Comment extractor (`GeminiCLIRunner._extract_comment`). -/

/-- Line terminators recognized by Python's `str.splitlines`. -/
def isLineTerm (c : Char) : Bool :=
  c = '\n' || c = '\r' || c = Char.ofNat 11 || c = Char.ofNat 12 ||
  c = Char.ofNat 28 || c = Char.ofNat 29 || c = Char.ofNat 30 ||
  c = Char.ofNat 133 || c = Char.ofNat 8232 || c = Char.ofNat 8233

/-- Worker for `splitlines`: `acc` holds the current line reversed; a
trailing terminator does not open an empty final line, and CR LF counts
as a single break. -/
def splitlinesGo : Str → Str → List Str
  | [], acc => if acc = [] then [] else [acc.reverse]
  | c :: cs, acc =>
    if c = '\r' then
      match cs with
      | d :: cs2 =>
          if d = '\n' then acc.reverse :: splitlinesGo cs2 []
          else acc.reverse :: splitlinesGo (d :: cs2) []
      | [] => acc.reverse :: []
    else if isLineTerm c then acc.reverse :: splitlinesGo cs []
    else splitlinesGo cs (c :: acc)

/-- Python `s.splitlines()`. -/
def splitlines (s : Str) : List Str := splitlinesGo s []

/-- Python `s.endswith(p)` on code-point lists. -/
def endsWith (p l : Str) : Bool := List.isPrefixOf p.reverse l.reverse

/-- The backtick character, 0x60. -/
def btick : Char := Char.ofNat 96

/-- The double-quote character, 0x22. -/
def quoteD : Char := Char.ofNat 34

/-- The single-quote character, 0x27. -/
def quoteS : Char := Char.ofNat 39

/-- A triple-backtick code-fence marker. -/
def fenceStr : Str := [btick, btick, btick]

/-- Python `s.strip` of backticks: drop all leading and trailing ones. -/
def stripBackticks (n : Str) : Str :=
  ((n.dropWhile (fun c => c = btick)).reverse.dropWhile
    (fun c => c = btick)).reverse

/-- The fixed markdown bullet/numbering/checkmark heads of
`_extract_comment` (checked with a tuple `startswith`). -/
def bulletPfxs : List Str :=
  [("- ").toList, ("* ").toList, ("1. ").toList, ("・").toList,
   ("✔ ").toList, ("✓ ").toList, ("» ").toList]

/-- The role-label heads stripped case-insensitively. -/
def rolePfxs : List Str :=
  [("assistant:").toList, ("model:").toList, ("output:").toList]

/-- Python `s.lower()` restricted to its basic-latin action, which is
all the role-label comparison exercises. -/
def lowerStr (l : Str) : Str := l.map Char.toLower

/-- Test that a line is wrapped in the quote character `q` on both
ends (Python `startswith` and `endswith` of a single character). -/
def isWrappedIn (q : Char) (n : Str) : Bool :=
  startsWith [q] n && endsWith [q] n

/-- Normalization pipeline of `_extract_comment` applied to the first
non-blank line, without the final length enforcement: strip, unwrap a
full code fence, drop a two-character bullet head, drop role labels in
order, unwrap one layer of quotes (`s[1:-1]` is drop-first
drop-last). -/
def normalizeCore (line : Str) : Str :=
  let n0 := pyStrip line
  let n1 := if startsWith fenceStr n0 && endsWith fenceStr n0 then
              stripBackticks n0 else n0
  let n2 := if bulletPfxs.any (fun p => startsWith p n1) then
              pyStrip (n1.drop 2) else n1
  let n3 := rolePfxs.foldl
    (fun n p => if startsWith p (lowerStr n) then pyStrip (n.drop p.length)
                else n) n2
  if isWrappedIn quoteD n3 || isWrappedIn quoteS n3 then
    pyStrip (n3.drop 1).dropLast
  else n3

/-- The length enforcement of `_extract_comment`:
`if max_output_chars > 0 and len(n) > max_output_chars` then a slice to
that many characters.  `max_output_chars` is a Python int and may be
zero or negative, hence the `Int` model. -/
def normalizeLine (maxChars : Int) (line : Str) : Str :=
  let n := normalizeCore line
  if 0 < maxChars ∧ (n.length : Int) > maxChars then n.take maxChars.toNat
  else n

/-- Python `s[:m]` for an arbitrary (possibly negative) int `m`. -/
def pySliceTo (m : Int) (l : Str) : Str :=
  if 0 ≤ m then l.take m.toNat
  else l.take (l.length - (-m).toNat)

/-- The first line whose stripped content is non-empty, as selected by
the extraction loop. -/
def firstNonBlank (s : Str) : Option Str :=
  (splitlines s).find? (fun l => !(pyStrip l).isEmpty)

/-- GeminiCLIRunner._extract_comment: ANSI-strip the raw answer,
normalize the first non-blank line with length enforcement, or fall
back to the stripped whole text sliced by `max_output_chars`
(`fallback[:max_output_chars] if fallback else ''`). -/
def extractComment (maxChars : Int) (raw : Str) : Str :=
  match firstNonBlank (ansiStrip raw) with
  | some line => normalizeLine maxChars line
  | none =>
      if pyStrip (ansiStrip raw) = [] then []
      else pySliceTo maxChars (pyStrip (ansiStrip raw))

/-- Reference variant of `_extract_comment` with every truncation step
removed, used to state that a configuration performs no truncation. -/
def extractCommentNoTrunc (raw : Str) : Str :=
  match firstNonBlank (ansiStrip raw) with
  | some line => normalizeCore line
  | none => pyStrip (ansiStrip raw)

/-! Comment generation entry point (`GeminiCLIRunner.generate_comment_async`). -/

/-- Outcome of awaiting `_send_and_receive_async` inside
`generate_comment_async`, following the source's raise sites: a raw
answer, `asyncio.CancelledError`, or any other raised exception
(`RuntimeError`, `TimeoutError`, pexpect/transport errors — all
`Exception` subclasses caught by the `except Exception` arm). -/
inductive AwaitResult where
  | success (raw : Str)
  | cancelled
  | failure
  deriving Repr, DecidableEq

/-- Result of the entry point: a returned comment, or the re-raised
cancellation. -/
inductive CommentResult where
  | ok (comment : Str)
  | cancelled
  deriving Repr, DecidableEq

/-- The fixed fallback comment of the source. -/
def fallbackComment : Str := ("いいね！").toList

/-- GeminiCLIRunner.generate_comment_async as a function of the
exchange's outcome: extract a comment from a successful raw answer,
substitute the fallback when extraction is empty or when the exchange
raised a non-cancellation exception, and re-raise cancellation. -/
def generateComment (maxChars : Int) (res : AwaitResult) : CommentResult :=
  match res with
  | AwaitResult.success raw =>
      let comment := extractComment maxChars raw
      if comment = [] then CommentResult.ok fallbackComment
      else CommentResult.ok comment
  | AwaitResult.cancelled => CommentResult.cancelled
  | AwaitResult.failure => CommentResult.ok fallbackComment

/-! Per-speaker batching (`handle_connection.process_messages` and
`flush_buffer` in src/app/client.py), restricted to one speaker with
idle flushing disabled. -/

/-- Python `'\n'.join(buf)`. -/
def joinNL : List Str → Str
  | [] => []
  | [l] => l
  | l :: ls => l ++ '\n' :: joinNL ls

/-- The subtitle loop of `process_messages` for a single speaker with
idle flushing disabled, followed by the shutdown drain: each arriving
line is appended to the buffer; when the buffer length reaches
`max(1, lines_per_inference)` it is flushed as the newline-join of its
lines and cleared; the drain flushes a non-empty remainder.  Returns
the batched prompt texts in flush order. -/
def runBatch (t : Nat) : List Str → List Str → List Str
  | buf, [] => if buf = [] then [] else [joinNL buf]
  | buf, l :: ls =>
      if max 1 t ≤ (buf ++ [l]).length then joinNL (buf ++ [l]) :: runBatch t [] ls
      else runBatch t (buf ++ [l]) ls

/-- Modelled from the spec's words (for comparison with `runBatch`):
the arrival-order chunks of `t` lines each, the last possibly
shorter. -/
def chunksSpec (t : Nat) : List Str → List (List Str)
  | [] => []
  | l :: ls => (l :: ls.take (t - 1)) :: chunksSpec t (ls.drop (t - 1))
termination_by ls => ls.length
decreasing_by simp [List.length_drop]; omega

/-! Per-speaker buffer/timer state of `handle_connection`
(src/app/client.py): `speaker_buffers` is a dict in insertion order,
`idle_tasks` maps speaker keys to live idle-flush tasks. -/

/-- The connection-local state: the speaker buffers in dict insertion
order and the keys holding a live (scheduled, not yet fired or
cancelled) idle task. -/
structure ClientState where
  buffers : List (Str × List Str)
  idleKeys : List Str
  deriving Repr, DecidableEq

/-- Python `speaker_buffers.get(key, [])` (first entry wins, as in a
dict whose keys are unique). -/
def lookupBuf (bufs : List (Str × List Str)) (k : Str) : List Str :=
  ((bufs.find? (fun p => p.1 = k)).map Prod.snd).getD []

/-- Python `speaker_buffers[key] = v` preserving dict insertion order: a
present key is updated in place, an absent key is appended. -/
def setBuf : List (Str × List Str) → Str → List Str → List (Str × List Str)
  | [], k, v => [(k, v)]
  | (k2, v2) :: rest, k, v =>
      if k2 = k then (k, v) :: rest else (k2, v2) :: setBuf rest k v

/-- How a flush was triggered in the message loop. -/
inductive FlushOrigin where
  | threshold
  | idleTimer
  deriving Repr, DecidableEq

/-- An input to the message loop: a subtitle message (routed with
`_speaker_key(speaker) = speaker or ''`), or the expiry of the idle
timer for a key (which runs `idle_wait_and_flush`, a no-op unless that
key's task is live). -/
inductive ClientEvent where
  | subtitle (speaker : Option Str) (text : Str)
  | idleFire (k : Str)
  deriving Repr, DecidableEq

/-- One step of the subtitle-handling loop of `process_messages`
together with idle-timer expiry.  A subtitle appends to its speaker's
buffer, then either flushes on `len >= max(1, lines_per_inference)`
(emitting the batched text and cancelling the key's idle task) or runs
`schedule_idle_flush`, which does nothing when `idle_flush_seconds <= 0`
and otherwise replaces the key's idle task.  A firing idle timer
flushes the key's buffer if non-empty; its task is then spent. -/
def clientStep (t : Nat) (d : Int) (st : ClientState) :
    ClientEvent → ClientState × List (FlushOrigin × Str × Str)
  | ClientEvent.subtitle speaker text =>
      if text = [] then (st, [])
      else
        let k := speaker.getD []
        let bufs1 := setBuf st.buffers k (lookupBuf st.buffers k ++ [text])
        if max 1 t ≤ (lookupBuf bufs1 k).length then
          (⟨setBuf bufs1 k [], st.idleKeys.filter (fun x => ¬ x = k)⟩,
           [(FlushOrigin.threshold, k, joinNL (lookupBuf bufs1 k))])
        else
          if d ≤ 0 then (⟨bufs1, st.idleKeys⟩, [])
          else (⟨bufs1, (st.idleKeys.filter (fun x => ¬ x = k)) ++ [k]⟩, [])
  | ClientEvent.idleFire k =>
      if k ∈ st.idleKeys then
        if lookupBuf st.buffers k = [] then
          (⟨st.buffers, st.idleKeys.filter (fun x => ¬ x = k)⟩, [])
        else
          (⟨setBuf st.buffers k [], st.idleKeys.filter (fun x => ¬ x = k)⟩,
           [(FlushOrigin.idleTimer, k, joinNL (lookupBuf st.buffers k))])
      else (st, [])

/-- The message loop run over a list of events, collecting the flush
trace. -/
def runClientFrom (t : Nat) (d : Int) :
    ClientState → List ClientEvent →
      ClientState × List (FlushOrigin × Str × Str)
  | st, [] => (st, [])
  | st, ev :: evs =>
      ((runClientFrom t d (clientStep t d st ev).1 evs).1,
       (clientStep t d st ev).2 ++
         (runClientFrom t d (clientStep t d st ev).1 evs).2)

/-! Shutdown drain of `handle_connection` (the `finally` blocks,
src/app/client.py lines 226-240): flush every speaker key, cancel all
idle tasks, close the websocket. -/

/-- An observable action of the shutdown sequence. -/
inductive ShutEvent where
  | dispatch (k : Str) (text : Str)
  | closeWS
  deriving Repr, DecidableEq

/-- Bool test that an event is the dispatch of speaker `k`. -/
def isDispatchFor (k : Str) : ShutEvent → Bool
  | ShutEvent.dispatch k2 _ => k2 = k
  | ShutEvent.closeWS => false

/-- The drain loop `for k in list(speaker_buffers.keys()): await
flush_buffer(k or None)`: an empty buffer is a no-op, a non-empty one is
read, cleared and dispatched as one comment. -/
def drainGo (bufs : List (Str × List Str)) :
    List Str → List (Str × List Str) × List ShutEvent
  | [] => (bufs, [])
  | k :: ks =>
      if lookupBuf bufs k = [] then drainGo bufs ks
      else
        ((drainGo (setBuf bufs k []) ks).1,
         ShutEvent.dispatch k (joinNL (lookupBuf bufs k)) ::
           (drainGo (setBuf bufs k []) ks).2)

/-- The whole shutdown path: drain every key of `speaker_buffers`, then
`cancel_all_idle_tasks()`, then close the websocket. -/
def shutdownSeq (st : ClientState) : ClientState × List ShutEvent :=
  (⟨(drainGo st.buffers (st.buffers.map Prod.fst)).1, []⟩,
   (drainGo st.buffers (st.buffers.map Prod.fst)).2 ++ [ShutEvent.closeWS])

/-! Cooperative interleaving of the immediate-comment path and an
idle-timer flush (src/app/client.py).  Under asyncio, control can only
change hands at an await; `process_messages` awaits
`runner.generate_comment_async` for an immediate comment with no lock
held, while a scheduled `idle_wait_and_flush` task holds `buffer_lock`
only around the buffer swap inside `flush_buffer` and releases it
before awaiting the same `generate_comment_async`.  Each task is a list
of atomic segments separated by its await points; the exchange spans at
least one await (`asyncio.sleep(0.1)` and the `to_thread` reads), so
its begin and end lie in different segments. -/

/-- An atomic micro-operation of a client task. -/
inductive COp where
  | acqLock
  | relLock
  | beginEx
  | endEx
  deriving Repr, DecidableEq

/-- A cooperative task: its remaining segments, each a run of
operations executed without yielding to the event loop. -/
abbrev CTask := List (List COp)

/-- The immediate-comment branch of `process_messages`: it calls
`generate_comment_async` directly, so it holds no lock while the
exchange is in flight; the await inside the exchange separates its
begin from its end. -/
def immediateTask : CTask := [[COp.beginEx], [COp.endEx]]

/-- The `idle_wait_and_flush` task body (`flush_buffer`): await the
buffer lock, swap-and-clear the buffer and leave the `async with`
(releasing the lock synchronously), then await the same exchange. -/
def idleFlushTask : CTask := [[COp.acqLock], [COp.relLock, COp.beginEx], [COp.endEx]]

/-- Scheduler state: the tasks' remaining segments, whether
`buffer_lock` is held, the number of exchanges currently in flight
against the runner, and the high-water mark of that number. -/
structure CConf where
  tasks : List CTask
  lockHeld : Bool
  active : Nat
  maxActive : Nat
  deriving Repr, DecidableEq

/-- Effect of one micro-operation. -/
def execOp (c : CConf) : COp → CConf
  | COp.acqLock => { c with lockHeld := true }
  | COp.relLock => { c with lockHeld := false }
  | COp.beginEx =>
      { c with active := c.active + 1,
               maxActive := max c.maxActive (c.active + 1) }
  | COp.endEx => { c with active := c.active - 1 }

/-- Run the next segment of task `i` if that task still has one and is
not blocked on the lock; otherwise the configuration is unchanged. -/
def schedStep (c : CConf) (i : Nat) : CConf :=
  match c.tasks.get? i with
  | some (seg :: rest) =>
      if seg.head? = some COp.acqLock ∧ c.lockHeld then c
      else
        let c2 := seg.foldl execOp c
        { c2 with tasks := c.tasks.set i rest }
  | _ => c

/-- Run a whole schedule (a list of task indices). -/
def runSched (c : CConf) (sched : List Nat) : CConf :=
  sched.foldl schedStep c

/-- The initial configuration: the immediate-comment handler and a
fired idle-flush task are both runnable, the lock is free, no exchange
is active. -/
def initialConf : CConf := ⟨[immediateTask, idleFlushTask], false, 0, 0⟩

/-- A concrete shutdown instance: two speakers holding non-empty
buffers and one live idle task. -/
def shutdownExampleState : ClientState :=
  ⟨[((("alice").toList), [("hi").toList]),
    ((("bob").toList), [("yo").toList, ("ho").toList])],
   [("alice").toList]⟩

/-! Theorems. -/

lemma foldl_replaceChar (ps : List (Char × Char)) (l : Str) :
    ps.foldl (fun acc p => replaceChar p.1 p.2 acc) l =
      l.map (fun c => ps.foldl (fun x p => if x = p.1 then p.2 else x) c) := by
  induction ps generalizing l with
  | nil => simp
  | cons p ps ih =>
      simp only [List.foldl_cons]
      rw [ih, replaceChar, List.map_map]
      rfl

lemma sanitizeText_eq_map (l : Str) : sanitizeText l = l.map sanChar := by
  by_cases h : l = []
  · simp [sanitizeText, h]
  · simp only [sanitizeText, h, if_false]
    exact foldl_replaceChar specialCharMap l

lemma sanChar_of_not_reserved {c : Char} (h : ¬ c ∈ reservedChars) :
    sanChar c = c := by
  simp only [reservedChars, specialCharMap, List.map_cons, List.map_nil,
    List.mem_cons, List.not_mem_nil, or_false, not_or] at h
  obtain ⟨h1, h2, h3, h4, h5, h6, h7, h8, h9, h10, h11, h12, h13, h14⟩ := h
  simp [sanChar, specialCharMap, h1, h2, h3, h4, h5, h6, h7, h8, h9, h10,
    h11, h12, h13, h14]

lemma sanChar_not_reserved (c : Char) : ¬ sanChar c ∈ reservedChars := by
  by_cases h : c ∈ reservedChars
  · simp only [reservedChars, specialCharMap, List.map_cons, List.map_nil,
      List.mem_cons, List.not_mem_nil, or_false] at h
    rcases h with h | h | h | h | h | h | h | h | h | h | h | h | h | h <;>
      subst h <;> decide
  · rw [sanChar_of_not_reserved h]; exact h

lemma sanChar_idem (c : Char) : sanChar (sanChar c) = sanChar c := by
  by_cases h : c ∈ reservedChars
  · simp only [reservedChars, specialCharMap, List.map_cons, List.map_nil,
      List.mem_cons, List.not_mem_nil, or_false] at h
    rcases h with h | h | h | h | h | h | h | h | h | h | h | h | h | h <;>
      subst h <;> decide
  · rw [sanChar_of_not_reserved h, sanChar_of_not_reserved h]

/-- C8: the sanitizer is total and idempotent on its output — for every
input string, no character from the reserved set of `_SPECIAL_CHAR_MAP`
appears in the sanitized result, and sanitizing an already-sanitized
string returns it unchanged. -/
theorem sanitizeText_total_idempotent (l : Str) :
    (∀ c, c ∈ reservedChars → ¬ c ∈ sanitizeText l) ∧
    sanitizeText (sanitizeText l) = sanitizeText l := by
  constructor
  · intro c hc hmem
    rw [sanitizeText_eq_map] at hmem
    obtain ⟨a, _, rfl⟩ := List.mem_map.mp hmem
    exact sanChar_not_reserved a hc
  · rw [sanitizeText_eq_map, sanitizeText_eq_map l]
    induction l with
    | nil => rfl
    | cons a l ih =>
        simp only [List.map_cons]
        rw [sanChar_idem a, ih]

/-- Witness for C8 at a concrete input. -/
theorem sanitizeText_total_idempotent_witness :
    ('/' ∈ reservedChars ∧ ¬ '/' ∈ sanitizeText (("a/b~c!").toList)) ∧
    sanitizeText (sanitizeText (("a/b~c!").toList)) =
      sanitizeText (("a/b~c!").toList) :=
  ⟨⟨by decide,
    (sanitizeText_total_idempotent (("a/b~c!").toList)).1 '/' (by decide)⟩,
   (sanitizeText_total_idempotent (("a/b~c!").toList)).2⟩

lemma isLineTerm_isPySpace {c : Char} (h : isLineTerm c = true) :
    isPySpace c = true := by
  simp only [isLineTerm, Bool.or_eq_true, decide_eq_true_eq] at h
  rcases h with ((((((((h | h) | h) | h) | h) | h) | h) | h) | h) | h <;>
    subst h <;> decide

lemma pyStrip_eq_nil_iff (l : Str) :
    pyStrip l = [] ↔ ∀ c ∈ l, isPySpace c := by
  unfold pyStrip
  constructor
  · intro h c hc
    have h1 : (l.dropWhile isPySpace).reverse.dropWhile isPySpace = [] := by
      simpa using congrArg List.reverse h
    rw [List.dropWhile_eq_nil_iff] at h1
    by_cases hx : c ∈ l.dropWhile isPySpace
    · exact h1 c (List.mem_reverse.mpr hx)
    · have hsplit : l.takeWhile isPySpace ++ l.dropWhile isPySpace = l :=
        List.takeWhile_append_dropWhile isPySpace l
      rw [← hsplit] at hc
      rcases List.mem_append.mp hc with h2 | h2
      · exact List.mem_takeWhile_imp h2
      · exact absurd h2 hx
  · intro h
    have h1 : l.dropWhile isPySpace = [] :=
      List.dropWhile_eq_nil_iff.mpr (fun x hx => h x hx)
    simp [h1]

lemma splitlinesGo_cover (s acc : Str) :
    (∀ l ∈ splitlinesGo s acc, ∀ x ∈ l, isPySpace x) →
    ∀ c, (c ∈ s ∨ c ∈ acc) → isPySpace c := by
  induction s, acc using splitlinesGo.induct with
  | case1 =>
      intro _ c hc
      rcases hc with hc | hc <;> simp at hc
  | case2 acc hne =>
      intro h c hc
      rcases hc with hc | hc
      · simp at hc
      · rw [splitlinesGo.eq_1, if_neg hne] at h
        exact h _ (List.mem_singleton.mpr rfl) c (List.mem_reverse.mpr hc)
  | case3 acc ds ih =>
      intro h c hc
      simp only [splitlinesGo.eq_2, if_pos] at h
      have htail := ih (fun l hl => h l (List.mem_cons_of_mem _ hl))
      rcases hc with hc | hc
      · rcases List.mem_cons.mp hc with rfl | hc
        · decide
        · rcases List.mem_cons.mp hc with rfl | hc
          · decide
          · exact htail c (Or.inl hc)
      · exact h _ (List.mem_cons_self _ _) c (List.mem_reverse.mpr hc)
  | case4 acc d ds hd ih =>
      intro h c hc
      rw [splitlinesGo.eq_2, if_pos rfl, if_neg hd] at h
      have htail := ih (fun l hl => h l (List.mem_cons_of_mem _ hl))
      rcases hc with hc | hc
      · rcases List.mem_cons.mp hc with rfl | hc
        · decide
        · exact htail c (Or.inl hc)
      · exact h _ (List.mem_cons_self _ _) c (List.mem_reverse.mpr hc)
  | case5 acc =>
      intro h c hc
      rw [splitlinesGo.eq_3, if_pos rfl] at h
      rcases hc with hc | hc
      · rcases List.mem_singleton.mp hc with rfl
        decide
      · exact h _ (List.mem_singleton.mpr rfl) c (List.mem_reverse.mpr hc)
  | case6 ch cs acc hcr hterm ih =>
      intro h c hc
      have htail : ∀ l ∈ splitlinesGo cs [], ∀ x ∈ l, isPySpace x := by
        cases cs with
        | nil => intro l hl; simp [splitlinesGo.eq_1] at hl
        | cons d ds =>
            rw [splitlinesGo.eq_2, if_neg hcr, if_pos hterm] at h
            exact fun l hl => h l (List.mem_cons_of_mem _ hl)
      have hhead : ∀ x ∈ acc.reverse, isPySpace x := by
        cases cs with
        | nil =>
            rw [splitlinesGo.eq_3, if_neg hcr, if_pos hterm] at h
            exact h _ (List.mem_cons_self _ _)
        | cons d ds =>
            rw [splitlinesGo.eq_2, if_neg hcr, if_pos hterm] at h
            exact h _ (List.mem_cons_self _ _)
      rcases hc with hc | hc
      · rcases List.mem_cons.mp hc with rfl | hc
        · exact isLineTerm_isPySpace hterm
        · exact ih htail c (Or.inl hc)
      · exact hhead c (List.mem_reverse.mpr hc)
  | case7 ch cs acc hcr hterm ih =>
      intro h c hc
      have h2 : ∀ l ∈ splitlinesGo cs (ch :: acc), ∀ x ∈ l, isPySpace x := by
        cases cs with
        | nil =>
            rw [splitlinesGo.eq_3, if_neg hcr, if_neg hterm] at h
            exact h
        | cons d ds =>
            rw [splitlinesGo.eq_2, if_neg hcr, if_neg hterm] at h
            exact h
      have htail := ih h2
      rcases hc with hc | hc
      · rcases List.mem_cons.mp hc with rfl | hc
        · exact htail c (Or.inr (List.mem_cons_self _ _))
        · exact htail c (Or.inl hc)
      · exact htail c (Or.inr (List.mem_cons_of_mem _ hc))

lemma firstNonBlank_none_strip_nil (s : Str) (h : firstNonBlank s = none) :
    pyStrip s = [] := by
  rw [pyStrip_eq_nil_iff]
  intro c hc
  unfold firstNonBlank splitlines at h
  rw [List.find?_eq_none] at h
  refine splitlinesGo_cover s [] ?_ c (Or.inl hc)
  intro l hl x hx
  have hpl : pyStrip l = [] := by
    have hb := h l hl
    simpa using hb
  exact (pyStrip_eq_nil_iff l).mp hpl x hx

lemma normalizeLine_noTrunc (m : Int) (line : Str) (h : m ≤ 0) :
    normalizeLine m line = normalizeCore line := by
  have hcond : ¬ (0 < m ∧ ((normalizeCore line).length : Int) > m) := by
    rintro ⟨h1, _⟩; omega
  unfold normalizeLine
  exact if_neg hcond

lemma normalizeLine_length (m : Int) (line : Str) (h : 0 < m) :
    ((normalizeLine m line).length : Int) ≤ m := by
  unfold normalizeLine
  by_cases hc : 0 < m ∧ ((normalizeCore line).length : Int) > m
  · rw [if_pos hc]
    simp only [List.length_take]
    omega
  · rw [if_neg hc]
    push_neg at hc
    exact hc h

/-- C6: the comment extractor truncates its result to at most
`max_output_chars` characters when that bound is positive, performs no
truncation for a zero or negative bound on either extraction path, and
maps an empty raw answer to the empty string. -/
theorem extractComment_truncation (m : Int) (raw : Str) :
    (0 < m → ((extractComment m raw).length : Int) ≤ m) ∧
    (m ≤ 0 → extractComment m raw = extractCommentNoTrunc raw) ∧
    extractComment m [] = [] := by
  refine ⟨?_, ?_, ?_⟩
  · intro hm
    unfold extractComment
    cases hfb : firstNonBlank (ansiStrip raw) with
    | some line => exact normalizeLine_length m line hm
    | none =>
        by_cases hf : pyStrip (ansiStrip raw) = []
        · rw [if_pos hf]
          simp only [List.length_nil, Nat.cast_zero]
          omega
        · rw [if_neg hf]
          unfold pySliceTo
          rw [if_pos (le_of_lt hm)]
          simp only [List.length_take]
          omega
  · intro hm
    unfold extractComment extractCommentNoTrunc
    cases hfb : firstNonBlank (ansiStrip raw) with
    | some line => exact normalizeLine_noTrunc m line hm
    | none =>
        have hf : pyStrip (ansiStrip raw) = [] :=
          firstNonBlank_none_strip_nil _ hfb
        rw [if_pos hf, hf]
  · rfl

/-- Witness for C6 at concrete bounds. -/
theorem extractComment_truncation_witness :
    ((0 : Int) < 5 ∧
      ((extractComment 5 (("hello world").toList)).length : Int) ≤ 5) ∧
    ((-3 : Int) ≤ 0 ∧ extractComment (-3) (("hi there").toList) =
      extractCommentNoTrunc (("hi there").toList)) :=
  ⟨⟨by decide,
    (extractComment_truncation 5 (("hello world").toList)).1 (by decide)⟩,
   ⟨by decide,
    (extractComment_truncation (-3) (("hi there").toList)).2.1 (by decide)⟩⟩

/-- Sanity check of the extraction scenario: a quoted answer is
unwrapped under a bound of 50 characters. -/
lemma extractComment_quote_scenario :
    extractComment 50 (("\"Nice shot!\"").toList) = ("Nice shot!").toList := by
  decide

/-- C4: on the scripted stream of the streaming scenario with no skip
text, the completion detector returns the final streamed body
Hello, world. -/
theorem waitAnswer_streaming_scenario :
    waitAnswer scriptA none = some (("Hello, world").toList) := by decide

/-- C3: on the scripted stream of the staleness scenario, with the skip
text Hello, world recorded from the previous exchange, the detector
passes over the stale block and returns New answer from the second
block. -/
theorem waitAnswer_staleness_scenario :
    waitAnswer scriptB (some (("Hello, world").toList)) =
      some (("New answer").toList) := by decide

lemma runBatch_general (t : Nat) (ht : 1 ≤ t) :
    ∀ n ls buf, ls.length ≤ n → buf.length < t →
      runBatch t buf ls =
        if buf = [] then (chunksSpec t ls).map joinNL
        else ((buf ++ ls.take (t - buf.length)) ::
          chunksSpec t (ls.drop (t - buf.length))).map joinNL := by
  intro n
  induction n with
  | zero =>
      intro ls buf hlen hbuf
      have hls : ls = [] := List.length_eq_zero.mp (Nat.le_zero.mp hlen)
      subst hls
      by_cases hb : buf = []
      · simp [runBatch, hb, chunksSpec]
      · simp [runBatch, hb, chunksSpec]
  | succ n ih =>
      intro ls buf hlen hbuf
      cases ls with
      | nil =>
          by_cases hb : buf = []
          · simp [runBatch, hb, chunksSpec]
          · simp [runBatch, hb, chunksSpec]
      | cons l ls =>
          have hmax : max 1 t = t := Nat.max_eq_right ht
          have hlen2 : ls.length ≤ n := by
            simp only [List.length_cons] at hlen; omega
          rw [runBatch, hmax]
          by_cases hth : t ≤ (buf ++ [l]).length
          · rw [if_pos hth]
            have heq : buf.length + 1 = t := by
              simp only [List.length_append, List.length_singleton] at hth
              omega
            rw [ih ls [] hlen2 (by simp; omega), if_pos rfl]
            by_cases hb : buf = []
            · subst hb
              have ht1 : t = 1 := by simpa using heq.symm
              subst ht1
              rw [if_pos rfl]
              rw [show chunksSpec 1 (l :: ls) =
                    (l :: ls.take 0) :: chunksSpec 1 (ls.drop 0) from by
                  rw [chunksSpec]]
              simp
            · rw [if_neg hb]
              have h1 : t - buf.length = 1 := by omega
              rw [h1]
              simp
          · rw [if_neg hth]
            have hlt : (buf ++ [l]).length < t := by
              simp only [List.length_append, List.length_singleton] at hth ⊢
              omega
            rw [ih ls (buf ++ [l]) hlen2 hlt]
            rw [if_neg (by simp : ¬ (buf ++ [l] : List Str) = [])]
            by_cases hb : buf = []
            · subst hb
              rw [if_pos rfl]
              simp only [List.nil_append, List.length_singleton]
              rw [show chunksSpec t (l :: ls) =
                    (l :: ls.take (t - 1)) :: chunksSpec t (ls.drop (t - 1)) from by
                  rw [chunksSpec]]
              simp
            · rw [if_neg hb]
              have hk : t - buf.length = (t - (buf ++ [l]).length) + 1 := by
                simp only [List.length_append, List.length_singleton] at hlt ⊢
                omega
              rw [hk]
              simp only [List.take_succ_cons, List.drop_succ_cons,
                List.append_assoc, List.cons_append, List.nil_append]

lemma chunksSpec_length (t : Nat) (ht : 1 ≤ t) :
    ∀ n ls, ls.length ≤ n →
      (chunksSpec t ls).length = (ls.length + t - 1) / t := by
  intro n
  induction n with
  | zero =>
      intro ls hlen
      have hls : ls = [] := List.length_eq_zero.mp (Nat.le_zero.mp hlen)
      subst hls
      rw [show chunksSpec t [] = [] from by rw [chunksSpec]]
      simp [Nat.div_eq_of_lt (by omega : t - 1 < t)]
  | succ n ih =>
      intro ls hlen
      cases ls with
      | nil =>
          rw [show chunksSpec t [] = [] from by rw [chunksSpec]]
          simp [Nat.div_eq_of_lt (by omega : t - 1 < t)]
      | cons l ls =>
          rw [show chunksSpec t (l :: ls) =
                (l :: ls.take (t - 1)) :: chunksSpec t (ls.drop (t - 1)) from by
              rw [chunksSpec]]
          have hlen2 : (ls.drop (t - 1)).length ≤ n := by
            simp only [List.length_cons] at hlen
            simp only [List.length_drop]
            omega
          rw [List.length_cons, ih _ hlen2]
          simp only [List.length_drop, List.length_cons]
          have key : (ls.length - (t - 1) + t - 1) / t = ls.length / t := by
            by_cases hc : t - 1 ≤ ls.length
            · have h2 : ls.length - (t - 1) + t - 1 = ls.length := by omega
              rw [h2]
            · have h0 : ls.length - (t - 1) = 0 := by omega
              rw [h0]
              rw [Nat.div_eq_of_lt (by omega : 0 + t - 1 < t)]
              rw [Nat.div_eq_of_lt (by omega : ls.length < t)]
          rw [key]
          have h3 : ls.length + 1 + t - 1 = ls.length + t := by omega
          rw [h3]
          rw [Nat.add_div_right _ (by omega : 0 < t)]

/-- C5: with threshold `t ≥ 1` and idle flushing disabled, a sequence of
subtitle lines for one speaker produces exactly ceil(N/t) flushes
(counting the shutdown drain of a final partial batch), and each flush's
batched text is the newline-join of its chunk of up to `t` lines in
arrival order. -/
theorem runBatch_chunks (t : Nat) (lines : List Str) (ht : 1 ≤ t) :
    runBatch t [] lines = (chunksSpec t lines).map joinNL ∧
    (runBatch t [] lines).length = (lines.length + t - 1) / t := by
  have h := runBatch_general t ht lines.length lines [] le_rfl (by simp; omega)
  rw [if_pos rfl] at h
  refine ⟨h, ?_⟩
  rw [h, List.length_map]
  exact chunksSpec_length t ht lines.length lines le_rfl

/-- Witness for C5: three lines at threshold two yield two flushes. -/
theorem runBatch_chunks_witness :
    1 ≤ 2 ∧
    (runBatch 2 [] [("a").toList, ("b").toList, ("c").toList] =
        (chunksSpec 2 [("a").toList, ("b").toList, ("c").toList]).map joinNL ∧
      (runBatch 2 [] [("a").toList, ("b").toList, ("c").toList]).length =
        (3 + 2 - 1) / 2) :=
  ⟨by decide,
   runBatch_chunks 2 [("a").toList, ("b").toList, ("c").toList] (by decide)⟩

/-- Sanity check: the concrete flush texts at threshold two. -/
lemma runBatch_example :
    runBatch 2 [] [("a").toList, ("b").toList, ("c").toList] =
      [("a\nb").toList, ("c").toList] := by decide

/-- C9: apart from cancellation, the comment-generation entry point
always returns a comment and that comment is non-empty: a raised
non-cancellation exception (including the response timeout) and an
empty extraction are both replaced by the fixed fallback comment. -/
theorem generateComment_total_nonempty (maxChars : Int) (res : AwaitResult)
    (h : res ≠ AwaitResult.cancelled) :
    ∃ s, generateComment maxChars res = CommentResult.ok s ∧ s ≠ [] := by
  cases res with
  | success raw =>
      by_cases hc : extractComment maxChars raw = []
      · exact ⟨fallbackComment, by simp [generateComment, hc], by decide⟩
      · exact ⟨extractComment maxChars raw, by simp [generateComment, hc], hc⟩
  | cancelled => exact absurd rfl h
  | failure => exact ⟨fallbackComment, rfl, by decide⟩

/-- Witness for C9 at the failure outcome. -/
theorem generateComment_total_nonempty_witness :
    AwaitResult.failure ≠ AwaitResult.cancelled ∧
    ∃ s, generateComment 120 AwaitResult.failure = CommentResult.ok s ∧
      s ≠ [] :=
  ⟨by decide, generateComment_total_nonempty 120 AwaitResult.failure (by decide)⟩

lemma lookup_setBuf_self (bufs : List (Str × List Str)) (k : Str)
    (v : List Str) : lookupBuf (setBuf bufs k v) k = v := by
  induction bufs with
  | nil => simp [lookupBuf, setBuf]
  | cons p rest ih =>
      obtain ⟨k2, v2⟩ := p
      by_cases hk : k2 = k
      · subst hk
        simp [setBuf, lookupBuf]
      · simp only [setBuf, if_neg hk]
        simp only [lookupBuf, List.find?_cons, decide_eq_false hk]
        exact ih

lemma lookup_setBuf_ne (bufs : List (Str × List Str)) (k k2 : Str)
    (v : List Str) (h : k2 ≠ k) :
    lookupBuf (setBuf bufs k v) k2 = lookupBuf bufs k2 := by
  induction bufs with
  | nil => simp [lookupBuf, setBuf, Ne.symm h]
  | cons p rest ih =>
      obtain ⟨k3, v3⟩ := p
      by_cases hk : k3 = k
      · subst hk
        simp [setBuf, lookupBuf, Ne.symm h]
      · simp only [setBuf, if_neg hk]
        by_cases hk2 : k3 = k2
        · subst hk2
          simp [lookupBuf, List.find?_cons]
        · simp only [lookupBuf, List.find?_cons, decide_eq_false hk2]
          exact ih

lemma lookupBuf_of_mem_nodup (bufs : List (Str × List Str)) (k : Str)
    (bs : List Str) (h : (k, bs) ∈ bufs)
    (hnd : (bufs.map Prod.fst).Nodup) : lookupBuf bufs k = bs := by
  induction bufs with
  | nil => simp at h
  | cons p rest ih =>
      obtain ⟨k2, v2⟩ := p
      rcases List.mem_cons.mp h with heq | hmem
      · obtain ⟨rfl, rfl⟩ := Prod.mk.inj heq.symm
        simp [lookupBuf]
      · by_cases hk : k2 = k
        · subst hk
          exfalso
          have hm : k2 ∈ rest.map Prod.fst :=
            List.mem_map.mpr ⟨(k2, bs), hmem, rfl⟩
          simp only [List.map_cons, List.nodup_cons] at hnd
          exact hnd.1 hm
        · simp only [lookupBuf, List.find?_cons, decide_eq_false hk]
          refine ih hmem ?_
          simp only [List.map_cons, List.nodup_cons] at hnd
          exact hnd.2

lemma drainGo_all_dispatch (keys : List Str) :
    ∀ bufs, ∀ e ∈ (drainGo bufs keys).2, e ≠ ShutEvent.closeWS := by
  induction keys with
  | nil => intro bufs e he; simp [drainGo] at he
  | cons k ks ih =>
      intro bufs e he
      by_cases hb : lookupBuf bufs k = []
      · rw [drainGo, if_pos hb] at he
        exact ih bufs e he
      · rw [drainGo, if_neg hb] at he
        rcases List.mem_cons.mp he with rfl | he2
        · intro hcon; cases hcon
        · exact ih (setBuf bufs k []) e he2

lemma drainGo_notmem (k : Str) (keys : List Str) :
    ∀ bufs, k ∉ keys →
      List.countP (isDispatchFor k) (drainGo bufs keys).2 = 0 := by
  induction keys with
  | nil => intro bufs _; simp [drainGo]
  | cons k2 ks ih =>
      intro bufs hk
      have hk2 : k2 ≠ k := fun h => hk (h ▸ List.mem_cons_self _ _)
      have hks : k ∉ ks := fun h => hk (List.mem_cons_of_mem _ h)
      by_cases hb : lookupBuf bufs k2 = []
      · rw [drainGo, if_pos hb]
        exact ih bufs hks
      · rw [drainGo, if_neg hb]
        rw [List.countP_cons]
        have : isDispatchFor k (ShutEvent.dispatch k2
            (joinNL (lookupBuf bufs k2))) = false := by
          simp [isDispatchFor, hk2]
        rw [this]
        simp only [Bool.false_eq_true, if_false]
        rw [ih (setBuf bufs k2 []) hks]

lemma drainGo_mem (k : Str) (keys : List Str) :
    ∀ bufs, k ∈ keys → keys.Nodup →
      List.countP (isDispatchFor k) (drainGo bufs keys).2 =
        if lookupBuf bufs k = [] then 0 else 1 := by
  induction keys with
  | nil => intro bufs hk; simp at hk
  | cons k2 ks ih =>
      intro bufs hk hnd
      have hnd2 : ks.Nodup := (List.nodup_cons.mp hnd).2
      by_cases hkk : k2 = k
      · subst hkk
        have hknot : k2 ∉ ks := (List.nodup_cons.mp hnd).1
        by_cases hb : lookupBuf bufs k2 = []
        · rw [drainGo, if_pos hb, if_pos hb]
          exact drainGo_notmem k2 ks bufs hknot
        · rw [drainGo, if_neg hb, if_neg hb]
          rw [List.countP_cons]
          have hd : isDispatchFor k2 (ShutEvent.dispatch k2
              (joinNL (lookupBuf bufs k2))) = true := by
            simp [isDispatchFor]
          rw [hd]
          simp only [if_true]
          rw [drainGo_notmem k2 ks (setBuf bufs k2 []) hknot]
      · have hkm : k ∈ ks := by
          rcases List.mem_cons.mp hk with h | h
          · exact absurd h.symm hkk
          · exact h
        by_cases hb : lookupBuf bufs k2 = []
        · rw [drainGo, if_pos hb]
          exact ih bufs hkm hnd2
        · rw [drainGo, if_neg hb]
          rw [List.countP_cons]
          have hd : isDispatchFor k (ShutEvent.dispatch k2
              (joinNL (lookupBuf bufs k2))) = false := by
            simp [isDispatchFor, hkk]
          rw [hd]
          simp only [Bool.false_eq_true, if_false]
          rw [ih (setBuf bufs k2 []) hkm hnd2]
          rw [lookup_setBuf_ne bufs k2 k [] (fun h => hkk h.symm)]
          simp

lemma drainGo_dispatches (k : Str) (keys : List Str) :
    ∀ bufs, k ∈ keys → lookupBuf bufs k ≠ [] →
      ShutEvent.dispatch k (joinNL (lookupBuf bufs k)) ∈
        (drainGo bufs keys).2 := by
  induction keys with
  | nil => intro bufs hk; simp at hk
  | cons k2 ks ih =>
      intro bufs hk hb
      by_cases hkk : k2 = k
      · subst hkk
        rw [drainGo, if_neg hb]
        exact List.mem_cons_self _ _
      · have hkm : k ∈ ks := by
          rcases List.mem_cons.mp hk with h | h
          · exact absurd h.symm hkk
          · exact h
        by_cases hb2 : lookupBuf bufs k2 = []
        · rw [drainGo, if_pos hb2]
          exact ih bufs hkm hb
        · rw [drainGo, if_neg hb2]
          refine List.mem_cons_of_mem _ ?_
          have hlook : lookupBuf (setBuf bufs k2 []) k = lookupBuf bufs k :=
            lookup_setBuf_ne bufs k2 k [] (fun h => hkk h.symm)
          rw [← hlook] at hb ⊢
          exact ih (setBuf bufs k2 []) hkm hb

/-- C7: on shutdown, every speaker holding a non-empty buffer is
flushed exactly once — the drain dispatches exactly one comment per
such speaker, with the newline-join of its buffered lines — all
dispatches happen before the websocket close (the close is the last
event), and the idle-task table is emptied, so no idle timer can fire
after the drain. -/
theorem shutdown_drain_flushes_once (st : ClientState)
    (hnd : (st.buffers.map Prod.fst).Nodup) :
    (∀ k bs, (k, bs) ∈ st.buffers → bs ≠ [] →
        ShutEvent.dispatch k (joinNL bs) ∈ (shutdownSeq st).2 ∧
        List.countP (isDispatchFor k) (shutdownSeq st).2 = 1) ∧
    (∃ ds, (shutdownSeq st).2 = ds ++ [ShutEvent.closeWS] ∧
        ∀ e ∈ ds, e ≠ ShutEvent.closeWS) ∧
    (shutdownSeq st).1.idleKeys = [] := by
  refine ⟨?_, ⟨(drainGo st.buffers (st.buffers.map Prod.fst)).2, rfl,
    drainGo_all_dispatch _ st.buffers⟩, rfl⟩
  intro k bs hmem hne
  have hlook : lookupBuf st.buffers k = bs :=
    lookupBuf_of_mem_nodup st.buffers k bs hmem hnd
  have hkmem : k ∈ st.buffers.map Prod.fst :=
    List.mem_map.mpr ⟨(k, bs), hmem, rfl⟩
  constructor
  · show _ ∈ (drainGo st.buffers (st.buffers.map Prod.fst)).2 ++ _
    refine List.mem_append_left _ ?_
    have := drainGo_dispatches k (st.buffers.map Prod.fst) st.buffers hkmem
      (hlook ▸ hne)
    rwa [hlook] at this
  · show List.countP _ ((drainGo st.buffers (st.buffers.map Prod.fst)).2 ++
      [ShutEvent.closeWS]) = 1
    rw [List.countP_append]
    have h1 := drainGo_mem k (st.buffers.map Prod.fst) st.buffers hkmem hnd
    rw [hlook, if_neg hne] at h1
    rw [h1]
    simp [isDispatchFor]

/-- Witness for C7 at the concrete two-speaker state. -/
theorem shutdown_drain_flushes_once_witness :
    (((("alice").toList), [("hi").toList]) ∈ shutdownExampleState.buffers ∧
      ShutEvent.dispatch (("alice").toList) (joinNL [("hi").toList]) ∈
        (shutdownSeq shutdownExampleState).2 ∧
      List.countP (isDispatchFor (("alice").toList))
        (shutdownSeq shutdownExampleState).2 = 1) ∧
    (shutdownSeq shutdownExampleState).1.idleKeys = [] :=
  ⟨⟨by decide,
    ((shutdown_drain_flushes_once shutdownExampleState (by decide)).1
      (("alice").toList) [("hi").toList] (by decide) (by decide)).1,
    ((shutdown_drain_flushes_once shutdownExampleState (by decide)).1
      (("alice").toList) [("hi").toList] (by decide) (by decide)).2⟩,
   (shutdown_drain_flushes_once shutdownExampleState (by decide)).2.2⟩

/-- C10: when the configured idle-flush duration is zero or negative,
`schedule_idle_flush` never schedules an idle task for any speaker, so
across any event sequence the idle-task table stays empty and every
flush emitted by the message loop is a threshold flush — never an
idle-timer flush. -/
theorem idleDisabled_no_idle_flush (t : Nat) (d : Int) (hd : d ≤ 0)
    (evs : List ClientEvent) :
    ∀ st, st.idleKeys = [] →
      (runClientFrom t d st evs).1.idleKeys = [] ∧
      ∀ o k tx, (o, k, tx) ∈ (runClientFrom t d st evs).2 →
        o = FlushOrigin.threshold := by
  induction evs with
  | nil =>
      intro st h
      exact ⟨h, by intro o k tx hmem; simp [runClientFrom] at hmem⟩
  | cons ev evs ih =>
      intro st h
      have hstep : (clientStep t d st ev).1.idleKeys = [] ∧
          ∀ o k tx, (o, k, tx) ∈ (clientStep t d st ev).2 →
            o = FlushOrigin.threshold := by
        cases ev with
        | subtitle sp tx =>
            by_cases htx : tx = []
            · simp [clientStep, htx, h]
            · simp only [clientStep, if_neg htx]
              split
              · constructor
                · simp [h]
                · intro o k2 t2 hmem
                  simp only [List.mem_singleton] at hmem
                  obtain ⟨rfl, -, -⟩ := Prod.mk.inj hmem
                  rfl
              · exact ⟨h, by intro o k2 t2 hmem; simp at hmem⟩
        | idleFire k =>
            have hknot : ¬ k ∈ st.idleKeys := by rw [h]; simp
            simp [clientStep, hknot, h]
      have hrec := ih (clientStep t d st ev).1 hstep.1
      refine ⟨?_, ?_⟩
      · rw [runClientFrom]
        exact hrec.1
      · rw [runClientFrom]
        intro o k tx hmem
        rcases List.mem_append.mp hmem with hm | hm
        · exact hstep.2 o k tx hm
        · exact hrec.2 o k tx hm

/-- Witness for C10 at a concrete disabled duration and event list. -/
theorem idleDisabled_no_idle_flush_witness :
    (0 : Int) ≤ 0 ∧ ClientState.idleKeys ⟨[], []⟩ = [] ∧
    ((runClientFrom 3 0 ⟨[], []⟩
        [ClientEvent.subtitle (some (("alice").toList)) (("a").toList),
         ClientEvent.idleFire (("alice").toList),
         ClientEvent.subtitle none (("b").toList)]).1.idleKeys = [] ∧
      ∀ o k tx, (o, k, tx) ∈ (runClientFrom 3 0 ⟨[], []⟩
        [ClientEvent.subtitle (some (("alice").toList)) (("a").toList),
         ClientEvent.idleFire (("alice").toList),
         ClientEvent.subtitle none (("b").toList)]).2 →
        o = FlushOrigin.threshold) :=
  ⟨by decide, rfl,
   idleDisabled_no_idle_flush 3 0 (by decide)
     [ClientEvent.subtitle (some (("alice").toList)) (("a").toList),
      ClientEvent.idleFire (("alice").toList),
      ClientEvent.subtitle none (("b").toList)] ⟨[], []⟩ rfl⟩

/-- C2: the mutual exclusion the claim asserts is absent from the code.
In the cooperative interleaving model of src/app/client.py, the
schedule in which the message loop begins an immediate-comment exchange
and suspends at the exchange's internal await, after which the event
loop runs a fired idle-flush task through its buffer swap and into the
same exchange, drives two exchanges against the runner at once
(`maxActive = 2`) — `buffer_lock` is released before the exchange and
no other lock exists on either path. -/
theorem exchange_overlap_reachable :
    (runSched initialConf [0, 1, 1]).maxActive = 2 ∧
    (runSched initialConf [0, 1, 1]).active = 2 := by decide

/-- C1 counterexample: on the streaming-scenario stream the detector's
confirmed branch never fires (the status line arrives while the loading
flag is still set, so the blank line is not counted), the answer is only
the best-effort value returned at end of stream — and the exchange still
caches it into `_last_answer`.  This refutes the claim that
`_last_answer` is updated only on a detector-confirmed answer. -/
theorem lastAnswer_cached_without_confirmation :
    (waitAnswerI scriptA none).2 = false ∧
    waitAnswer scriptA none = some (("Hello, world").toList) ∧
    (sendAndReceive ⟨true, none⟩ scriptA).2.lastAnswer =
      some (("Hello, world").toList) := by decide

/-- C1 amended: on an initialized session, `_last_answer` is updated
exactly when the detector returns a non-empty answer — confirmed or
best-effort on deadline.  Forward direction: a non-empty detector
return is cached into `_last_answer` and returned by the exchange.
Converse/timeout clause: when the detector yields nothing truthy (null
or an empty string), the exchange raises `TimeoutError` and the whole
session state — in particular the stored last answer — is unchanged. -/
theorem lastAnswer_update_characterization (st : RunnerState)
    (lines : List Str) (hinit : st.initialized = true) :
    (∀ s, waitAnswer lines st.lastAnswer = some s → s ≠ [] →
      (sendAndReceive st lines).2.lastAnswer = some s ∧
      (sendAndReceive st lines).1 = ExchangeOutcome.ok s) ∧
    ((waitAnswer lines st.lastAnswer = none ∨
      waitAnswer lines st.lastAnswer = some []) →
      (sendAndReceive st lines).1 = ExchangeOutcome.timeoutErr ∧
      (sendAndReceive st lines).2 = st) := by
  obtain ⟨init, la⟩ := st
  simp only at hinit
  subst hinit
  constructor
  · intro s hw hs
    constructor
    · simp [sendAndReceive, hw, hs]
    · simp [sendAndReceive, hw, hs]
  · intro hw
    rcases hw with hw | hw
    · constructor
      · simp [sendAndReceive, hw]
      · simp [sendAndReceive, hw]
    · constructor
      · simp [sendAndReceive, hw]
      · simp [sendAndReceive, hw]

/-- Witness for the amended C1 at the streaming-scenario stream on a
fresh initialized session: the detector's non-empty return is cached
and returned. -/
theorem lastAnswer_update_characterization_witness :
    RunnerState.initialized ⟨true, none⟩ = true ∧
    waitAnswer scriptA none = some (("Hello, world").toList) ∧
    (sendAndReceive ⟨true, none⟩ scriptA).2.lastAnswer =
      some (("Hello, world").toList) ∧
    (sendAndReceive ⟨true, none⟩ scriptA).1 =
      ExchangeOutcome.ok (("Hello, world").toList) :=
  ⟨rfl, by decide,
   ((lastAnswer_update_characterization ⟨true, none⟩ scriptA rfl).1
     (("Hello, world").toList) (by decide) (by decide)).1,
   ((lastAnswer_update_characterization ⟨true, none⟩ scriptA rfl).1
     (("Hello, world").toList) (by decide) (by decide)).2⟩

end MenZ
